import Mathlib

set_option maxHeartbeats 1000000
set_option maxRecDepth 4096

/- Shallow embedding of the URL route matcher of `src/wallet/src/main.rs`:
   `parse_route` (lines 92-211), the `WebState` record (lines 77-82) and the
   route-registration loop of `init_server` (lines 266-298).  TOML values are
   modelled by `Toml`, Rust `HashMap`s by association lists with
   insert-or-replace, and the segment-type registry of the external `routes`
   module by the `Registry` record.  Rust panics (`expect`, `unwrap`, and the
   panicking `Index` of `toml::Value`) are modelled by an explicit `crash`
   outcome, and the `Err(String)` results of `parse_route` by `err`. -/

/-- Association-list lookup: the model of `HashMap` lookup and of
`toml::Value::get` on tables. -/
def alookup {β : Type} : List (String × β) → String → Option β
  | [], _ => none
  | (k, v) :: m, q => if k = q then some v else alookup m q

/-- Association-list insert-or-replace: the model of `HashMap::insert`
(the concrete entry order is a model choice; `HashMap` order is
unobservable). -/
def mapInsert {β : Type} (m : List (String × β)) (k : String) (v : β) :
    List (String × β) :=
  m.filter (fun p => p.1 != k) ++ [(k, v)]

/-- Replay a sequence of recorded inserts over a starting map. -/
def applyInserts {β : Type} (base : List (String × β))
    (l : List (String × β)) : List (String × β) :=
  l.foldl (fun m kv => mapInsert m kv.1 kv.2) base

/-- The value an association-list entry holds after a recorded sequence of
inserts: untouched when no insert happened, otherwise the replayed inserts
over the previous contents (mirrors `bindings.entry(..).or_default()`
creating an entry only when an insert actually happens). -/
def bindingsAfter {β : Type} (prior : Option (List (String × β)))
    (inserts : List (String × β)) : Option (List (String × β)) :=
  match inserts with
  | [] => prior
  | _ :: _ => some (applyInserts (prior.getD []) inserts)

/-- Model of `toml::Value` restricted to the shapes `parse_route` and
`init_server` inspect. -/
inductive Toml where
  | str : String → Toml
  | boolean : Bool → Toml
  | arr : List Toml → Toml
  | table : List (String × Toml) → Toml

/-- `toml::Value::as_str`. -/
def Toml.asStr : Toml → Option String
  | .str s => some s
  | _ => none

/-- `toml::Value::as_array`. -/
def Toml.asArray : Toml → Option (List Toml)
  | .arr vs => some vs
  | _ => none

/-- `toml::Value::as_bool`. -/
def Toml.asBool : Toml → Option Bool
  | .boolean b => some b
  | _ => none

/-- `toml::Value::get`: `none` on a missing key or a non-table value.  The
panicking `Index` of `toml::Value` is `get` followed by
`expect("index not found")`. -/
def Toml.get : Toml → String → Option Toml
  | .table kvs, k => alookup kvs k
  | _, _ => none

/-- Helper for `splitSlash`. -/
def splitCharsAux : List Char → List Char → List String
  | [], acc => [String.mk acc.reverse]
  | c :: cs, acc =>
    if c = '/' then String.mk acc.reverse :: splitCharsAux cs []
    else splitCharsAux cs (c :: acc)

/-- Rust `str::split('/')`: always yields at least one piece, the empty
string included (`"".split('/')` is `[""]`, `"a//b"` is `["a","","b"]`). -/
def splitSlash (s : String) : List String := splitCharsAux s.data []

/-- Digit-string parser (the semantics of `str::parse::<u64>` restricted to
plain digit strings, written to be kernel-reducible). -/
def asNat? (s : String) : Option Nat :=
  if s.data.isEmpty then none
  else if s.data.all Char.isDigit then
    some (s.data.foldl (fun n c => n * 10 + (c.toNat - 48)) 0)
  else none

/-- Modelled from the spec: `UrlSegmentType` is declared in the `routes`
module, which is not under `src/`.  Section 4.1 of the spec requires plain
strings, length-tagged binary blobs, unsigned integers, booleans and tagged
domain identifiers. -/
inductive UrlSegmentType where
  | literal : UrlSegmentType
  | unsignedInt : UrlSegmentType
  | boolean : UrlSegmentType
  | taggedBlob : UrlSegmentType
deriving DecidableEq, Repr

/-- Modelled from the spec: `UrlSegmentValue` (the `Value` tagged union of
section 3) is declared in the `routes` module, which is not under `src/`. -/
inductive UrlSegmentValue where
  | stringVal : String → UrlSegmentValue
  | natVal : Nat → UrlSegmentValue
  | boolVal : Bool → UrlSegmentValue
  | blobVal : String → UrlSegmentValue
deriving DecidableEq, Repr

/-- `RouteBinding` of the `routes` module (a parameter name, its declared
type and its parsed value), as used by `parse_route`. -/
structure RouteBinding where
  parameter : String
  ptype : UrlSegmentType
  value : UrlSegmentValue
deriving DecidableEq, Repr

/-- The interface `parse_route` uses from the `routes` module:
`UrlSegmentType::from_str` (fallible, its error is propagated by `?` at line
137 of `main.rs`) and `UrlSegmentValue::parse` (an `Option`). -/
structure Registry where
  fromStr : String → Except String UrlSegmentType
  parse : UrlSegmentType → String → Option UrlSegmentValue

/-- Modelled from the spec: the name-to-type table of the
SegmentTypeRegistry (section 4.1); the concrete names are a model choice
since `api.toml` and the `routes` module are not under `src/`. -/
def specFromStr (s : String) : Except String UrlSegmentType :=
  if s = "Literal" then .ok .literal
  else if s = "UnsignedInteger" then .ok .unsignedInt
  else if s = "Boolean" then .ok .boolean
  else if s = "TaggedBase64" then .ok .taggedBlob
  else .error ("Unknown segment type: " ++ s)

/-- Modelled from the spec: per-type parsing (section 4.1).  `Literal`
accepts any raw segment including the empty one; unsigned integers are
nonempty digit strings; booleans are exactly `true`/`false`; tagged blobs
are modelled as nonempty strings (a stand-in for validated decoding). -/
def specParse : UrlSegmentType → String → Option UrlSegmentValue
  | .literal, s => some (.stringVal s)
  | .unsignedInt, s => (asNat? s).map .natVal
  | .boolean, s =>
    if s = "true" then some (.boolVal true)
    else if s = "false" then some (.boolVal false)
    else none
  | .taggedBlob, s => if s.isEmpty then none else some (.blobVal s)

/-- Modelled from the spec: a concrete SegmentTypeRegistry instance used for
concrete evaluations. -/
def specRegistry : Registry :=
  { fromStr := specFromStr, parse := specParse }

/-- How the evaluation of one route alternative ends: `failure` is the
`Err(String)` that `?` propagates out of `parse_route` (line 137), `crash`
is a Rust panic. -/
inductive Abort where
  | failure : String → Abort
  | crash : String → Abort
deriving DecidableEq, Repr

/-- The mutable state of the inner (per-segment) loop of `parse_route`
(lines 110-168): the two failure flags, the remaining request-segment
iterator, the accumulated documentation string and the accumulated
per-pattern bindings map. -/
structure AltState where
  foundLiteralMismatch : Bool
  argumentParseFailed : Bool
  reqSegments : List String
  argDoc : String
  bindings : List (String × List (String × RouteBinding))

/-- The mutable state of the outer (per-alternative) loop of `parse_route`
(lines 105-108): `arg_doc`, `matching_route_count`, `matching_route` and
`bindings`. -/
structure LoopState where
  argDoc : String
  matchingRouteCount : Nat
  matchingRoute : String
  bindings : List (String × List (String × RouteBinding))

/-- The result of `parse_route`: `ok` and `err` are the two sides of its
`Result<(String, HashMap<String, RouteBinding>), String>`; `crash` records a
panic together with its message. -/
inductive RouteResult where
  | ok : String → List (String × RouteBinding) → RouteResult
  | err : String → RouteResult
  | crash : String → RouteResult
deriving DecidableEq, Repr

/-- `bindings.entry(pattern).or_default().insert(k, rb)` of lines 144-147:
replay the insert into the entry of the outer map keyed by the pattern
string. -/
def outerInsert (m : List (String × List (String × RouteBinding)))
    (pattern k : String) (rb : RouteBinding) :
    List (String × List (String × RouteBinding)) :=
  mapInsert m pattern (mapInsert ((alookup m pattern).getD []) k rb)

/-- One iteration of the inner loop of `parse_route` (lines 118-168): a
pattern segment with type information is a parameter (lines 127-154), one
without is a literal (lines 155-167).  Both consume one request segment,
substituting the empty string when the request is exhausted
(`next().unwrap_or("")`). -/
def segStep (reg : Registry) (apiGroup : Toml) (pattern patSegment : String)
    (st : AltState) : Except Abort AltState :=
  match apiGroup.get patSegment with
  | some segmentTypeValue =>
    match segmentTypeValue.asStr with
    | none => .error (.crash "The path pattern must be a string.")
    | some segmentType =>
      let reqSegment := st.reqSegments.headD ""
      let rest := st.reqSegments.tail
      let doc := st.argDoc ++ "  Argument: " ++ patSegment ++ " as type "
        ++ segmentType ++ " and value: " ++ reqSegment ++ " "
      match reg.fromStr segmentType with
      | .error e => .error (.failure e)
      | .ok ptype =>
        match reg.parse ptype reqSegment with
        | some value =>
          .ok { st with
                reqSegments := rest,
                argDoc := doc ++ "(Parse succeeded)\n",
                bindings := outerInsert st.bindings pattern patSegment
                  ⟨patSegment, ptype, value⟩ }
        | none =>
          .ok { st with
                reqSegments := rest,
                argDoc := doc ++ "(Parse failed)\n",
                argumentParseFailed := true }
  | none =>
    let reqSegment := st.reqSegments.headD ""
    let rest := st.reqSegments.tail
    if reqSegment = patSegment then
      .ok { st with reqSegments := rest }
    else
      .ok { st with
            reqSegments := rest,
            foundLiteralMismatch := true,
            argDoc := st.argDoc ++ "Request segment " ++ reqSegment
              ++ " does not match route segment " ++ patSegment ++ ".\n" }

/-- The inner loop of `parse_route` over the slash-split pattern segments. -/
def runSegments (reg : Registry) (apiGroup : Toml) (pattern : String) :
    List String → AltState → Except Abort AltState
  | [], st => .ok st
  | s :: ss, st =>
    match segStep reg apiGroup pattern s st with
    | .error a => .error a
    | .ok st' => runSegments reg apiGroup pattern ss st'

/-- One iteration of the outer loop of `parse_route` (lines 109-196):
evaluate one route alternative to completion, then update the match count,
the chosen route and the documentation trace. -/
def processAlt (reg : Registry) (apiGroup : Toml) (reqSegs : List String)
    (st : LoopState) (routePattern : Toml) : Except Abort LoopState :=
  match routePattern.asStr with
  | none => .error (.crash "called Option::unwrap on a None value")
  | some pattern =>
    let doc0 := st.argDoc ++ "\n\nRoute: " ++ pattern
      ++ "\n--------------------\n"
    match runSegments reg apiGroup pattern (splitSlash pattern)
        ⟨false, false, reqSegs, doc0, st.bindings⟩ with
    | .error a => .error a
    | .ok fin =>
      let doc1 := if fin.foundLiteralMismatch then fin.argDoc
        else fin.argDoc ++ "Literals match for " ++ pattern ++ "\n"
      let lengthMatches := fin.reqSegments.isEmpty
      let doc2 := if lengthMatches then
          doc1 ++ "Length match for " ++ pattern ++ "\n"
        else doc1
      let doc3 := if fin.argumentParseFailed then
          doc2 ++ "Argument parsing failed.\n"
        else doc2 ++ "No argument parsing errors!\n"
      if !fin.argumentParseFailed && lengthMatches
          && !fin.foundLiteralMismatch then
        .ok ⟨doc3 ++ "Route matches request: " ++ pattern ++ "\n",
             st.matchingRouteCount + 1, pattern, fin.bindings⟩
      else
        .ok ⟨doc3 ++ "Route does not match request.\n",
             st.matchingRouteCount, st.matchingRoute, fin.bindings⟩

/-- The outer loop of `parse_route` over the `PATH` alternatives. -/
def runAlts (reg : Registry) (apiGroup : Toml) (reqSegs : List String) :
    List Toml → LoopState → Except Abort LoopState
  | [], st => .ok st
  | tv :: tvs, st =>
    match processAlt reg apiGroup reqSegs st tv with
    | .error a => .error a
    | .ok st' => runAlts reg apiGroup reqSegs tvs st'

/-- `parse_route` of `main.rs` lines 92-211.  The request is its list of
URL path segments (for an HTTP URL `path_segments()` always yields at least
one, possibly empty, segment; the `"No path segments"`/`"Empty path"` early
returns of lines 95-100 collapse to the empty-list case here).  The chain of
lookups models `api["route"][first_segment]`, `api["PATH"]` and
`api["DOC"]` with their panicking `expect`s. -/
def parse_route (reg : Registry) (api : Toml) (reqSegs : List String) :
    RouteResult :=
  match reqSegs with
  | [] => .err "Empty path"
  | firstSegment :: _ =>
    match api.get "route" with
    | none => .crash "index not found"
    | some routeTable =>
      match routeTable.get firstSegment with
      | none => .crash "index not found"
      | some apiGroup =>
        match apiGroup.get "PATH" with
        | none => .crash "index not found"
        | some pathValue =>
          match pathValue.asArray with
          | none => .crash "Invalid PATH type. Expecting array."
          | some routePatterns =>
            match apiGroup.get "DOC" with
            | none => .crash "index not found"
            | some docValue =>
              match docValue.asStr with
              | none => .crash "Missing DOC"
              | some doc =>
                match runAlts reg apiGroup reqSegs routePatterns
                    ⟨doc, 0, "", []⟩ with
                | .error (.failure e) => .err e
                | .error (.crash m) => .crash m
                | .ok st =>
                  match st.matchingRouteCount with
                  | 0 => .err (st.argDoc ++ "\nNeed documentation")
                  | 1 => .ok st.matchingRoute
                      ((alookup st.bindings st.matchingRoute).getD [])
                  | _ => .err (st.argDoc ++ "\nAmbiguity in api.toml")

/-- The chosen alternative of a match result, if any. -/
def chosenRoute : RouteResult → Option String
  | .ok p _ => some p
  | .err _ => none
  | .crash _ => none

/-- Discriminator for the `err` constructor. -/
def RouteResult.isErr : RouteResult → Bool
  | .err _ => true
  | _ => false

/-- `WebState` of `main.rs` lines 77-82; the wallet (an
`Arc<Mutex<Option<Wallet>>>` whose `Wallet` type lives outside `src/`) is an
abstract type parameter. -/
structure WebState (W : Type) where
  web_path : String
  api : Toml
  wallet : W

/-- `parse_route` as called on a request carrying a `WebState` (it reads
`req.state().api` and the URL segments, nothing else of the state). -/
def parse_route_req {W : Type} (reg : Registry) (st : WebState W)
    (reqSegs : List String) : RouteResult :=
  parse_route reg st.api reqSegs

/-- Result of the route-registration loop of `init_server`: the list of
`(path, web_socket)` registrations made from `api["route"]`, or a panic. -/
inductive InitResult where
  | ok : List (String × Bool) → InitResult
  | crash : String → InitResult
deriving DecidableEq, Repr

/-- Registrations contributed by one route group (lines 268-296 of
`main.rs`): read `WEB_SOCKET` (default `false`, panic on a non-boolean),
then `v["PATH"]` (panicking index), accepting a string or an array whose
non-string elements are skipped with a printed warning. -/
def groupRoutes (v : Toml) : Except String (List (String × Bool)) :=
  match (match v.get "WEB_SOCKET" with
         | some w => w.asBool
         | none => some false) with
  | none => .error "expected boolean value for WEB_SOCKET"
  | some ws =>
    match v.get "PATH" with
    | none => .error "index not found"
    | some (.str s) => .ok [(s, ws)]
    | some (.arr a) => .ok ((a.filterMap Toml.asStr).map (fun p => (p, ws)))
    | some _ => .error "Expecting a toml::String or toml::Array"

/-- Fold `groupRoutes` over the groups of the route table in order. -/
def initRoutesGo : List (String × Toml) → InitResult
  | [] => .ok []
  | (_, v) :: rest =>
    match groupRoutes v with
    | .error e => .crash e
    | .ok rs =>
      match initRoutesGo rest with
      | .crash e => .crash e
      | .ok more => .ok (rs ++ more)

/-- The route-registration part of `init_server` (lines 266-298): the
registrations made from the api table.  `api["route"]` is a panicking
index; a non-table `route` value makes `as_table` return `None`, the
`if let` is skipped and no api routes are registered.  The fixed
registrations (`/public`, `/`, the form demonstration) are transport set-up
outside this model. -/
def init_server_routes (api : Toml) : InitResult :=
  match api.get "route" with
  | none => .crash "index not found"
  | some (.table kvs) => initRoutesGo kvs
  | some _ => .ok []

/- ------------------------------------------------------------------ -/
/- Proof-side replica of the per-alternative evaluation.  The behaviour of
   one alternative depends on the group table only through which pattern
   segments have type information and what that type string is; `TypeView`
   is that observation. -/

/-- What the inner loop observes of the group table at one segment name:
`none` = no entry (a literal segment), `some none` = an entry that is not a
string (a panic), `some (some ty)` = a declared parameter of type `ty`. -/
def TypeView : Type := String → Option (Option String)

/-- The observation function of a concrete group table. -/
def typeView (apiGroup : Toml) : TypeView :=
  fun s => (apiGroup.get s).map Toml.asStr

/-- The control-relevant projection of `AltState`: the two failure flags,
the remaining request segments and the sequence of bindings inserts the
alternative has performed, in order. -/
structure CoreState where
  lit : Bool
  pf : Bool
  req : List String
  inserts : List (String × RouteBinding)

/-- One inner-loop step on the projected state. -/
def coreStep (tvw : TypeView) (reg : Registry) (patSegment : String)
    (c : CoreState) : Except Abort CoreState :=
  match tvw patSegment with
  | some none => .error (.crash "The path pattern must be a string.")
  | some (some segmentType) =>
    match reg.fromStr segmentType with
    | .error e => .error (.failure e)
    | .ok ptype =>
      match reg.parse ptype (c.req.headD "") with
      | some value =>
        .ok ⟨c.lit, c.pf, c.req.tail,
             c.inserts ++ [(patSegment, ⟨patSegment, ptype, value⟩)]⟩
      | none => .ok ⟨c.lit, true, c.req.tail, c.inserts⟩
  | none =>
    if c.req.headD "" = patSegment then .ok ⟨c.lit, c.pf, c.req.tail, c.inserts⟩
    else .ok ⟨true, c.pf, c.req.tail, c.inserts⟩

/-- The inner loop on the projected state. -/
def runCore (tvw : TypeView) (reg : Registry) :
    List String → CoreState → Except Abort CoreState
  | [], c => .ok c
  | s :: ss, c =>
    match coreStep tvw reg s c with
    | .error a => .error a
    | .ok c' => runCore tvw reg ss c'

/-- Evaluation of one alternative (pattern string `p`) on the projected
state, from a fresh inner state. -/
def altEval (tvw : TypeView) (reg : Registry) (reqSegs : List String)
    (p : String) : Except Abort CoreState :=
  runCore tvw reg (splitSlash p) ⟨false, false, reqSegs, []⟩

/-- The full-match test of line 188 of `main.rs` on a finished projected
state. -/
def altFullOf (c : CoreState) : Bool :=
  !c.pf && c.req.isEmpty && !c.lit

/-- Whether the alternative with pattern string `p` fully matches. -/
def altFullS (tvw : TypeView) (reg : Registry) (reqSegs : List String)
    (p : String) : Bool :=
  match altEval tvw reg reqSegs p with
  | .ok c => altFullOf c
  | .error _ => false

/-- Whether a `PATH` array element fully matches (a non-string element
never does; it panics instead). -/
def altFull (tvw : TypeView) (reg : Registry) (reqSegs : List String)
    (tv : Toml) : Bool :=
  match tv.asStr with
  | some p => altFullS tvw reg reqSegs p
  | none => false

/-- How the evaluation of one `PATH` array element aborts, if it does. -/
def altAbort (tvw : TypeView) (reg : Registry) (reqSegs : List String)
    (tv : Toml) : Option Abort :=
  match tv.asStr with
  | none => some (.crash "called Option::unwrap on a None value")
  | some p =>
    match altEval tvw reg reqSegs p with
    | .error a => some a
    | .ok _ => none

/-- The pattern string of the last fully matching alternative of a `PATH`
list, if any (the loop overwrites `matching_route`, so the last full match
wins). -/
def lastFullStr (tvw : TypeView) (reg : Registry) (reqSegs : List String) :
    List Toml → Option String
  | [] => none
  | tv :: tvs =>
    match lastFullStr tvw reg reqSegs tvs with
    | some p => some p
    | none => if altFull tvw reg reqSegs tv then tv.asStr else none

/-- The net effect of the outer loop on the bindings-map entry of key `q`:
each alternative whose pattern string is `q` replays its recorded inserts
into that entry, every other alternative leaves it alone. -/
def bindsFold (tvw : TypeView) (reg : Registry) (reqSegs : List String)
    (q : String) : List Toml → Option (List (String × RouteBinding)) →
    Option (List (String × RouteBinding))
  | [], prior => prior
  | tv :: tvs, prior =>
    bindsFold tvw reg reqSegs q tvs
      (match tv.asStr with
       | some p =>
         if p = q then
           match altEval tvw reg reqSegs q with
           | .ok c => bindingsAfter prior c.inserts
           | .error _ => prior
         else prior
       | none => prior)

/-- Declarative literal-mismatch test: some pattern segment without type
information differs from the request segment consumed at its position (the
empty string once the request is exhausted). -/
def litMismatchD (tvw : TypeView) : List String → List String → Bool
  | [], _ => false
  | s :: ss, req =>
    (match tvw s with
     | none => req.headD "" != s
     | some _ => false)
    || litMismatchD tvw ss req.tail

/-- Declarative parse-failure test: some parameter segment whose type
resolves fails to parse the request segment consumed at its position. -/
def parseFailD (tvw : TypeView) (reg : Registry) :
    List String → List String → Bool
  | [], _ => false
  | s :: ss, req =>
    (match tvw s with
     | some (some ty) =>
       match reg.fromStr ty with
       | .ok pt => (reg.parse pt (req.headD "")).isNone
       | .error _ => false
     | _ => false)
    || parseFailD tvw reg ss req.tail

/-- Declarative binding sequence of one alternative: for every parameter
segment, in order, whose parse succeeds, the recorded
`(name, RouteBinding)` insert. -/
def paramBindings (tvw : TypeView) (reg : Registry) :
    List String → List String → List (String × RouteBinding)
  | [], _ => []
  | s :: ss, req =>
    (match tvw s with
     | some (some ty) =>
       match reg.fromStr ty with
       | .ok pt =>
         match reg.parse pt (req.headD "") with
         | some v => [(s, ⟨s, pt, v⟩)]
         | none => []
       | .error _ => []
     | _ => [])
    ++ paramBindings tvw reg ss req.tail

/-- The simulation relation between the concrete inner-loop state and its
projection, at pattern key `p` over the outer bindings map `b0` the
alternative started from. -/
def SimRel (p : String) (b0 : List (String × List (String × RouteBinding)))
    (st : AltState) (c : CoreState) : Prop :=
  st.foundLiteralMismatch = c.lit ∧
  st.argumentParseFailed = c.pf ∧
  st.reqSegments = c.req ∧
  (∀ q, q ≠ p → alookup st.bindings q = alookup b0 q) ∧
  alookup st.bindings p = bindingsAfter (alookup b0 p) c.inserts

/- ------------------------------------------------------------------ -/
/- Concrete api tables used for concrete evaluations. -/

/-- A two-alternative `getbalance` group. -/
def gW : Toml :=
  .table [("PATH", .arr [.str "getbalance", .str "getbalance/:n"]),
          ("DOC", .str "Balance docs."),
          (":n", .str "UnsignedInteger")]

/-- An api table with the single group `gW`. -/
def apiW : Toml := .table [("route", .table [("getbalance", gW)])]

/-- A group with two alternatives that both fully match `g/z`. -/
def gAmb : Toml :=
  .table [("PATH", .arr [.str "g/:a", .str "g/:b"]),
          ("DOC", .str "Ambiguous docs."),
          (":a", .str "Literal"),
          (":b", .str "Literal")]

/-- An api table with the single group `gAmb`. -/
def apiAmb : Toml := .table [("route", .table [("g", gAmb)])]

/-- A group whose single pattern repeats the parameter name `:x`. -/
def gDup : Toml :=
  .table [("PATH", .arr [.str "g/:x/:x"]),
          ("DOC", .str "Duplicate docs."),
          (":x", .str "Literal")]

/-- An api table with the single group `gDup`. -/
def apiDup : Toml := .table [("route", .table [("g", gDup)])]

/-- A group whose pattern references the undeclared type `Nonsense`. -/
def gU : Toml :=
  .table [("PATH", .arr [.str "frob/:z"]),
          ("DOC", .str "Frob docs."),
          (":z", .str "Nonsense")]

/-- An api table with the single group `gU`. -/
def apiU : Toml := .table [("route", .table [("frob", gU)])]

/-- A single-alternative group with no parameters. -/
def gS : Toml :=
  .table [("PATH", .arr [.str "ping"]), ("DOC", .str "Ping docs.")]

/-- An api table with the single group `gS`. -/
def apiS : Toml := .table [("route", .table [("ping", gS)])]

/- ------------------------------------------------------------------ -/
/- Basic lemmas about the map and string models. -/

theorem alookup_mapInsert_self {β : Type} (m : List (String × β)) (k : String)
    (v : β) : alookup (mapInsert m k v) k = some v := by
  induction m with
  | nil => simp [mapInsert, alookup]
  | cons a m ih =>
    obtain ⟨a1, a2⟩ := a
    by_cases h : a1 = k
    · simpa [mapInsert, List.filter_cons, h] using ih
    · simpa [mapInsert, List.filter_cons, h, alookup] using ih

theorem alookup_mapInsert_ne {β : Type} (m : List (String × β)) (k : String)
    (v : β) (q : String) (h : q ≠ k) :
    alookup (mapInsert m k v) q = alookup m q := by
  induction m with
  | nil => simp [mapInsert, alookup, Ne.symm h]
  | cons a m ih =>
    obtain ⟨a1, a2⟩ := a
    by_cases h1 : a1 = k
    · have h2 : ¬ a1 = q := fun hq => h (hq.symm.trans h1)
      simpa [mapInsert, List.filter_cons, h1, alookup, h2, Ne.symm h] using ih
    · by_cases h2 : a1 = q
      · simp [mapInsert, List.filter_cons, h1, alookup, h2, h]
      · simpa [mapInsert, List.filter_cons, h1, alookup, h2] using ih

theorem bindingsAfter_snoc {β : Type} (prior : Option (List (String × β)))
    (ins : List (String × β)) (k : String) (v : β) :
    bindingsAfter prior (ins ++ [(k, v)])
      = some (mapInsert ((bindingsAfter prior ins).getD []) k v) := by
  cases ins with
  | nil => simp [bindingsAfter, applyInserts]
  | cons a l => simp [bindingsAfter, applyInserts, List.foldl_append]

theorem strApp_exists_right (x a : String) : ∃ d, x ++ a = x ++ d :=
  ⟨a, rfl⟩

theorem strApp_shift (x d a : String) : (x ++ d) ++ a = x ++ (d ++ a) :=
  String.append_assoc x d a

theorem strApp_ex5 (x a b c d e : String) :
    ∃ w, x ++ a ++ b ++ c ++ d ++ e = x ++ w :=
  ⟨a ++ (b ++ (c ++ (d ++ e))), by simp [String.append_assoc]⟩

theorem strApp_ex8 (x a b c d e f g h : String) :
    ∃ w, x ++ a ++ b ++ c ++ d ++ e ++ f ++ g ++ h = x ++ w :=
  ⟨a ++ (b ++ (c ++ (d ++ (e ++ (f ++ (g ++ h)))))),
   by simp [String.append_assoc]⟩

/- ------------------------------------------------------------------ -/
/- Simulation between the concrete inner loop and its projection. -/

theorem segStep_sim (reg : Registry) (g : Toml) (p : String)
    (b0 : List (String × List (String × RouteBinding))) (s : String)
    (st : AltState) (c : CoreState) (h : SimRel p b0 st c) :
    (∃ a, coreStep (typeView g) reg s c = .error a ∧
       segStep reg g p s st = .error a) ∨
    (∃ c' st', coreStep (typeView g) reg s c = .ok c' ∧
       segStep reg g p s st = .ok st' ∧ SimRel p b0 st' c' ∧
       ∃ d, st'.argDoc = st.argDoc ++ d) := by
  obtain ⟨slit, spf, sreq, sdoc, sbind⟩ := st
  obtain ⟨clit, cpf, creq, cins⟩ := c
  obtain ⟨h1, h2, h3, h4, h5⟩ := h
  simp only [] at h1 h2 h3 h4 h5
  subst h1; subst h2; subst h3
  cases hg : g.get s with
  | none =>
    by_cases he : sreq.headD "" = s
    · right
      simp only [coreStep, segStep, typeView, hg, Option.map_none', he,
        if_pos rfl]
      exact ⟨_, _, rfl, rfl, ⟨rfl, rfl, rfl, h4, h5⟩,
        ⟨"", (String.append_empty sdoc).symm⟩⟩
    · right
      simp only [coreStep, segStep, typeView, hg, Option.map_none', he,
        if_neg he]
      exact ⟨_, _, rfl, rfl, ⟨rfl, rfl, rfl, h4, h5⟩,
        strApp_ex5 sdoc _ _ _ _ _⟩
  | some tvv =>
    cases hv : tvv.asStr with
    | none =>
      left
      simp only [coreStep, segStep, typeView, hg, Option.map_some', hv]
      exact ⟨_, rfl, rfl⟩
    | some ty =>
      cases hf : reg.fromStr ty with
      | error e =>
        left
        simp only [coreStep, segStep, typeView, hg, Option.map_some', hv, hf]
        exact ⟨_, rfl, rfl⟩
      | ok pt =>
        cases hp : reg.parse pt (sreq.headD "") with
        | none =>
          right
          simp only [coreStep, segStep, typeView, hg, Option.map_some', hv,
            hf, hp]
          exact ⟨_, _, rfl, rfl, ⟨rfl, rfl, rfl, h4, h5⟩,
            strApp_ex8 sdoc _ _ _ _ _ _ _ _⟩
        | some v =>
          right
          simp only [coreStep, segStep, typeView, hg, Option.map_some', hv,
            hf, hp]
          refine ⟨_, _, rfl, rfl, ⟨rfl, rfl, rfl, ?_, ?_⟩,
            strApp_ex8 sdoc _ _ _ _ _ _ _ _⟩
          · intro q hq
            simpa [outerInsert, alookup_mapInsert_ne _ _ _ q hq] using h4 q hq
          · simp only [outerInsert, alookup_mapInsert_self,
              bindingsAfter_snoc, h5]

theorem exApp1 (x y z : String) (h : ∃ d, y = x ++ d) :
    ∃ d, y ++ z = x ++ d := by
  obtain ⟨d, rfl⟩ := h
  exact ⟨d ++ z, String.append_assoc x d z⟩

theorem runSegments_sim (reg : Registry) (g : Toml) (p : String)
    (b0 : List (String × List (String × RouteBinding))) :
    ∀ (segs : List String) (st : AltState) (c : CoreState),
      SimRel p b0 st c →
      (∃ a, runCore (typeView g) reg segs c = .error a ∧
         runSegments reg g p segs st = .error a) ∨
      (∃ c' st', runCore (typeView g) reg segs c = .ok c' ∧
         runSegments reg g p segs st = .ok st' ∧ SimRel p b0 st' c' ∧
         ∃ d, st'.argDoc = st.argDoc ++ d)
  | [], st, c, h =>
    Or.inr ⟨c, st, rfl, rfl, h, "", (String.append_empty _).symm⟩
  | s :: ss, st, c, h => by
    rcases segStep_sim reg g p b0 s st c h with
      ⟨a, hc, hs⟩ | ⟨c1, st1, hc, hs, h1, d1, hd1⟩
    · exact Or.inl ⟨a, by simp [runCore, hc], by simp [runSegments, hs]⟩
    · rcases runSegments_sim reg g p b0 ss st1 c1 h1 with
        ⟨a, hc2, hs2⟩ | ⟨c2, st2, hc2, hs2, h2, d2, hd2⟩
      · exact Or.inl ⟨a, by simp [runCore, hc, hc2],
          by simp [runSegments, hs, hs2]⟩
      · exact Or.inr ⟨c2, st2, by simp [runCore, hc, hc2],
          by simp [runSegments, hs, hs2], h2, d1 ++ d2,
          by rw [hd2, hd1, String.append_assoc]⟩

theorem processAlt_abort (reg : Registry) (g : Toml) (req : List String)
    (st : LoopState) (tv : Toml) (a : Abort)
    (ha : altAbort (typeView g) reg req tv = some a) :
    processAlt reg g req st tv = .error a := by
  cases hs : tv.asStr with
  | none =>
    simp only [altAbort, hs] at ha
    injection ha with ha
    simp [processAlt, hs, ← ha]
  | some p =>
    simp only [altAbort, hs] at ha
    cases he : altEval (typeView g) reg req p with
    | ok c => simp [he] at ha
    | error a' =>
      simp only [he] at ha
      injection ha with ha
      subst ha
      have hrel : SimRel p st.bindings
          ⟨false, false, req,
           st.argDoc ++ "\n\nRoute: " ++ p ++ "\n--------------------\n",
           st.bindings⟩ ⟨false, false, req, []⟩ :=
        ⟨rfl, rfl, rfl, fun _ _ => rfl, rfl⟩
      rcases runSegments_sim reg g p st.bindings (splitSlash p) _ _ hrel with
        ⟨a2, hc, hs2⟩ | ⟨c', fin, hc, hs2, hrel', d, hd⟩
      · rw [altEval] at he
        rw [he] at hc
        injection hc with hc
        subst hc
        simp [processAlt, hs, hs2]
      · rw [altEval] at he
        rw [he] at hc
        cases hc

theorem processAlt_ok (reg : Registry) (g : Toml) (req : List String)
    (st : LoopState) (tv : Toml) (p : String) (c : CoreState)
    (hs : tv.asStr = some p)
    (he : altEval (typeView g) reg req p = .ok c) :
    ∃ st', processAlt reg g req st tv = .ok st' ∧
      st'.matchingRouteCount
        = st.matchingRouteCount + (if altFullOf c then 1 else 0) ∧
      st'.matchingRoute = (if altFullOf c then p else st.matchingRoute) ∧
      (∀ q, q ≠ p → alookup st'.bindings q = alookup st.bindings q) ∧
      alookup st'.bindings p = bindingsAfter (alookup st.bindings p) c.inserts ∧
      ∃ d, st'.argDoc
        = st.argDoc ++ "\n\nRoute: " ++ p ++ "\n--------------------\n" ++ d := by
  have hrel : SimRel p st.bindings
      ⟨false, false, req,
       st.argDoc ++ "\n\nRoute: " ++ p ++ "\n--------------------\n",
       st.bindings⟩ ⟨false, false, req, []⟩ :=
    ⟨rfl, rfl, rfl, fun _ _ => rfl, rfl⟩
  rcases runSegments_sim reg g p st.bindings (splitSlash p) _ _ hrel with
    ⟨a2, hc, hs2⟩ | ⟨c', fin, hc, hs2, hrel', d, hd⟩
  · rw [altEval] at he; rw [he] at hc; cases hc
  · rw [altEval] at he
    rw [he] at hc
    injection hc with hc
    subst hc
    obtain ⟨f1, f2, f3, f4, f5⟩ := hrel'
    obtain ⟨clit, cpf, creq, cins⟩ := c
    simp only [] at f1 f2 f3 f4 f5
    cases clit <;> cases cpf <;> cases creq <;>
      simp only [processAlt, hs, hs2, f1, f2, f3, altFullOf,
        List.isEmpty_nil, List.isEmpty_cons, Bool.not_false, Bool.not_true,
        Bool.and_true, Bool.and_false, Bool.true_and, Bool.false_and,
        if_true, if_false, Bool.false_eq_true, ite_true, ite_false] <;>
      refine ⟨_, rfl, by simp, by simp, f4, f5, ?_⟩ <;>
      repeat (first
        | exact ⟨d, hd⟩
        | apply exApp1)

theorem altFull_of_str (tvw : TypeView) (reg : Registry) (req : List String)
    (tv : Toml) (p : String) (hs : tv.asStr = some p) :
    altFull tvw reg req tv = altFullS tvw reg req p := by
  simp [altFull, hs]

theorem altFullS_eval (tvw : TypeView) (reg : Registry) (req : List String)
    (p : String) (c : CoreState) (he : altEval tvw reg req p = .ok c) :
    altFullS tvw reg req p = altFullOf c := by
  simp [altFullS, he]

theorem runAlts_ok (reg : Registry) (g : Toml) (req : List String) :
    ∀ (pats : List Toml) (st0 : LoopState),
      (∀ tv ∈ pats, altAbort (typeView g) reg req tv = none) →
      ∃ stf, runAlts reg g req pats st0 = .ok stf ∧
        stf.matchingRouteCount = st0.matchingRouteCount
          + pats.countP (altFull (typeView g) reg req) ∧
        stf.matchingRoute
          = (lastFullStr (typeView g) reg req pats).getD st0.matchingRoute ∧
        (∀ q, alookup stf.bindings q
          = bindsFold (typeView g) reg req q pats (alookup st0.bindings q)) ∧
        (∃ d, stf.argDoc = st0.argDoc ++ d) ∧
        (∀ tv ∈ pats, ∀ p, tv.asStr = some p →
          ∃ u w, stf.argDoc
            = u ++ "\n\nRoute: " ++ p ++ "\n--------------------\n" ++ w)
  | [], st0, _ =>
    ⟨st0, rfl, by simp [List.countP_nil], by simp [lastFullStr],
     fun _ => rfl, ⟨"", (String.append_empty _).symm⟩, by simp⟩
  | tv :: tvs, st0, hab => by
    have habh := hab tv (List.mem_cons_self tv tvs)
    cases hs : tv.asStr with
    | none => rw [altAbort, hs] at habh; cases habh
    | some p =>
      cases he : altEval (typeView g) reg req p with
      | error a => simp only [altAbort, hs, he] at habh; cases habh
      | ok c =>
        obtain ⟨st1, hP, hcnt1, hrt1, hb1, hb2, d1, hd1⟩ :=
          processAlt_ok reg g req st0 tv p c hs he
        obtain ⟨stf, hR, hcnt2, hrt2, hbf, ⟨d2, hd2⟩, hinf⟩ :=
          runAlts_ok reg g req tvs st1
            (fun tv' hm => hab tv' (List.mem_cons_of_mem tv hm))
        refine ⟨stf, by simp [runAlts, hP, hR], ?_, ?_, ?_, ?_, ?_⟩
        · rw [hcnt2, hcnt1, List.countP_cons,
            altFull_of_str (typeView g) reg req tv p hs,
            altFullS_eval (typeView g) reg req p c he]
          omega
        · rw [hrt2, hrt1]
          show _ = (lastFullStr (typeView g) reg req (tv :: tvs)).getD _
          rw [lastFullStr]
          cases hl : lastFullStr (typeView g) reg req tvs with
          | some q => simp [hl]
          | none =>
            rw [altFull_of_str (typeView g) reg req tv p hs,
              altFullS_eval (typeView g) reg req p c he]
            cases hf : altFullOf c <;> simp [hl, hf, hs]
        · intro q
          rw [hbf q]
          show _ = bindsFold (typeView g) reg req q (tv :: tvs) _
          rw [bindsFold]
          congr 1
          by_cases hq : p = q
          · subst hq
            rw [hs, hb2]
            simp [he]
          · rw [hs, hb1 q (fun hh => hq hh.symm)]
            simp [hq]
        · exact ⟨"\n\nRoute: " ++ (p ++ ("\n--------------------\n"
            ++ (d1 ++ d2))),
            by rw [hd2, hd1]; simp [String.append_assoc]⟩
        · intro tv' hm p' hs'
          rcases List.mem_cons.mp hm with rfl | hm'
          · rw [hs] at hs'
            injection hs' with hs'
            subst hs'
            exact ⟨st0.argDoc, d1 ++ d2,
              by rw [hd2, hd1, String.append_assoc]⟩
          · exact hinf tv' hm' p' hs'

theorem processAlt_ok_of_noabort (reg : Registry) (g : Toml)
    (req : List String) (st : LoopState) (tv : Toml)
    (h : altAbort (typeView g) reg req tv = none) :
    ∃ st', processAlt reg g req st tv = .ok st' := by
  cases hs : tv.asStr with
  | none => rw [altAbort, hs] at h; cases h
  | some p =>
    cases he : altEval (typeView g) reg req p with
    | error a => simp only [altAbort, hs, he] at h; cases h
    | ok c =>
      obtain ⟨st', hP, _⟩ := processAlt_ok reg g req st tv p c hs he
      exact ⟨st', hP⟩

theorem runAlts_abort (reg : Registry) (g : Toml) (req : List String) :
    ∀ (tvs1 : List Toml) (tv : Toml) (tvs2 : List Toml) (st0 : LoopState)
      (a : Abort),
      (∀ tv' ∈ tvs1, altAbort (typeView g) reg req tv' = none) →
      altAbort (typeView g) reg req tv = some a →
      runAlts reg g req (tvs1 ++ tv :: tvs2) st0 = .error a
  | [], tv, tvs2, st0, a, _, ha => by
    simp [runAlts, processAlt_abort reg g req st0 tv a ha]
  | tv1 :: tvs1, tv, tvs2, st0, a, h1, ha => by
    obtain ⟨st1, hP⟩ := processAlt_ok_of_noabort reg g req st0 tv1
      (h1 tv1 (List.mem_cons_self tv1 tvs1))
    simpa [runAlts, hP] using
      runAlts_abort reg g req tvs1 tv tvs2 st1 a
        (fun tv' hm => h1 tv' (List.mem_cons_of_mem tv1 hm)) ha

theorem runAlts_error_of_abort (reg : Registry) (g : Toml)
    (req : List String) :
    ∀ (pats : List Toml) (st0 : LoopState),
      (∃ tv ∈ pats, altAbort (typeView g) reg req tv ≠ none) →
      ∃ a, runAlts reg g req pats st0 = .error a
  | [], _, h => absurd h (by simp)
  | tv :: tvs, st0, h => by
    cases hh : altAbort (typeView g) reg req tv with
    | some a =>
      exact ⟨a, by simp [runAlts, processAlt_abort reg g req st0 tv a hh]⟩
    | none =>
      obtain ⟨st1, hP⟩ := processAlt_ok_of_noabort reg g req st0 tv hh
      obtain ⟨tv', hm, hne⟩ := h
      rcases List.mem_cons.mp hm with rfl | hm'
      · exact absurd hh hne
      · obtain ⟨a, hE⟩ := runAlts_error_of_abort reg g req tvs st1
          ⟨tv', hm', hne⟩
        exact ⟨a, by simp [runAlts, hP, hE]⟩

theorem drop_tail_eq {α : Type} (l : List α) (n : Nat) :
    l.tail.drop n = l.drop (n + 1) := by
  cases l <;> simp

theorem runCore_spec (tvw : TypeView) (reg : Registry) :
    ∀ (segs : List String) (c c' : CoreState),
      runCore tvw reg segs c = .ok c' →
      c'.lit = (c.lit || litMismatchD tvw segs c.req) ∧
      c'.pf = (c.pf || parseFailD tvw reg segs c.req) ∧
      c'.req = c.req.drop segs.length ∧
      c'.inserts = c.inserts ++ paramBindings tvw reg segs c.req
  | [], c, c', h => by
    injection h with h
    subst h
    simp [litMismatchD, parseFailD, paramBindings]
  | s :: ss, c, c', h => by
    rw [runCore] at h
    cases hst : coreStep tvw reg s c with
    | error a => rw [hst] at h; cases h
    | ok c1 =>
      rw [hst] at h
      obtain ⟨i1, i2, i3, i4⟩ := runCore_spec tvw reg ss c1 c' h
      rw [coreStep] at hst
      cases htv : tvw s with
      | none =>
        simp only [htv] at hst
        by_cases hh : c.req.headD "" = s
        · rw [if_pos hh] at hst
          injection hst with hst
          subst hst
          simp only [] at i1 i2 i3 i4
          rw [List.headD_eq_head?] at hh
          refine ⟨?_, ?_, ?_, ?_⟩
          · simp [i1, litMismatchD, htv, hh]
          · simp [i2, parseFailD, htv]
          · rw [i3, drop_tail_eq, List.length_cons]
          · simp [i4, paramBindings, htv]
        · rw [if_neg hh] at hst
          injection hst with hst
          subst hst
          simp only [] at i1 i2 i3 i4
          rw [List.headD_eq_head?] at hh
          refine ⟨?_, ?_, ?_, ?_⟩
          · simp [i1, litMismatchD, htv, bne_iff_ne, hh]
          · simp [i2, parseFailD, htv]
          · rw [i3, drop_tail_eq, List.length_cons]
          · simp [i4, paramBindings, htv]
      | some o =>
        cases o with
        | none => simp only [htv] at hst; cases hst
        | some ty =>
          simp only [htv] at hst
          cases hf : reg.fromStr ty with
          | error e => simp only [hf] at hst; cases hst
          | ok pt =>
            simp only [hf, List.headD_eq_head?] at hst
            cases hp : reg.parse pt (c.req.head?.getD "") with
            | some v =>
              simp only [hp] at hst
              injection hst with hst
              subst hst
              simp only [] at i1 i2 i3 i4
              refine ⟨?_, ?_, ?_, ?_⟩
              · simp [i1, litMismatchD, htv]
              · simp [i2, parseFailD, htv, hf, hp]
              · rw [i3, drop_tail_eq, List.length_cons]
              · simp [i4, paramBindings, htv, hf, hp, List.append_assoc]
            | none =>
              simp only [hp] at hst
              injection hst with hst
              subst hst
              simp only [] at i1 i2 i3 i4
              refine ⟨?_, ?_, ?_, ?_⟩
              · simp [i1, litMismatchD, htv]
              · simp [i2, parseFailD, htv, hf, hp]
              · rw [i3, drop_tail_eq, List.length_cons]
              · simp [i4, paramBindings, htv, hf, hp]

theorem altFull_isSome (tvw : TypeView) (reg : Registry) (req : List String)
    (tv : Toml) (h : altFull tvw reg req tv = true) :
    ∃ p, tv.asStr = some p := by
  cases hs : tv.asStr with
  | none => rw [altFull, hs] at h; cases h
  | some p => exact ⟨p, rfl⟩

theorem lastFullStr_none (tvw : TypeView) (reg : Registry)
    (req : List String) :
    ∀ pats : List Toml, (∀ tv ∈ pats, ¬ altFull tvw reg req tv = true) →
      lastFullStr tvw reg req pats = none
  | [], _ => rfl
  | tv :: tvs, h => by
    rw [lastFullStr, lastFullStr_none tvw reg req tvs
      (fun tv' hm => h tv' (List.mem_cons_of_mem tv hm))]
    simp [h tv (List.mem_cons_self tv tvs)]

theorem lastFullStr_unique (tvw : TypeView) (reg : Registry)
    (req : List String) :
    ∀ (pats : List Toml) (tv : Toml),
      pats.countP (altFull tvw reg req) = 1 → tv ∈ pats →
      altFull tvw reg req tv = true →
      lastFullStr tvw reg req pats = tv.asStr
  | [], tv, _, hm, _ => absurd hm (by simp)
  | a :: l, tv, hc, hm, hf => by
    rw [List.countP_cons] at hc
    by_cases ha : altFull tvw reg req a = true
    · have hl0 : l.countP (altFull tvw reg req) = 0 := by
        rw [if_pos ha] at hc; omega
      have hno := List.countP_eq_zero.mp hl0
      have hnone : lastFullStr tvw reg req l = none :=
        lastFullStr_none tvw reg req l hno
      rcases List.mem_cons.mp hm with rfl | hm'
      · rw [lastFullStr, hnone]
        simp [ha]
      · exact absurd hf (hno tv hm')
    · have hl1 : l.countP (altFull tvw reg req) = 1 := by
        rw [if_neg ha] at hc; omega
      rcases List.mem_cons.mp hm with rfl | hm'
      · exact absurd hf ha
      · rw [lastFullStr, lastFullStr_unique tvw reg req l tv hl1 hm' hf]
        obtain ⟨p, hp⟩ := altFull_isSome tvw reg req tv hf
        simp [hp]

theorem bindsFold_id (tvw : TypeView) (reg : Registry) (req : List String)
    (q : String) :
    ∀ (pats : List Toml) (prior : Option (List (String × RouteBinding))),
      (∀ tv ∈ pats, ¬ tv.asStr = some q) →
      bindsFold tvw reg req q pats prior = prior
  | [], _, _ => rfl
  | tv :: tvs, prior, h => by
    rw [bindsFold]
    have hh := h tv (List.mem_cons_self tv tvs)
    have hstep : (match tv.asStr with
        | some p =>
          if p = q then
            match altEval tvw reg req q with
            | .ok c => bindingsAfter prior c.inserts
            | .error _ => prior
          else prior
        | none => prior) = prior := by
      cases hs : tv.asStr with
      | none => rfl
      | some p =>
        have hpq : ¬ p = q := fun hp => hh (by rw [hs, hp])
        simp [hpq]
    rw [hstep]
    exact bindsFold_id tvw reg req q tvs prior
      (fun tv' hm => h tv' (List.mem_cons_of_mem tv hm))

theorem bindsFold_unique (tvw : TypeView) (reg : Registry)
    (req : List String) :
    ∀ (pats : List Toml) (p : String)
      (prior : Option (List (String × RouteBinding))) (c : CoreState),
      (∃ tv ∈ pats, tv.asStr = some p) →
      (∀ tv ∈ pats, tv.asStr = some p → altFull tvw reg req tv = true) →
      pats.countP (altFull tvw reg req) ≤ 1 →
      altEval tvw reg req p = .ok c →
      bindsFold tvw reg req p pats prior = bindingsAfter prior c.inserts
  | [], p, prior, c, hex, _, _, _ => absurd hex (by simp)
  | a :: l, p, prior, c, hex, hall, hc, he => by
    rw [List.countP_cons] at hc
    by_cases hs : a.asStr = some p
    · have haf : altFull tvw reg req a = true :=
        hall a (List.mem_cons_self a l) hs
      have hl0 : l.countP (altFull tvw reg req) = 0 := by
        rw [if_pos haf] at hc; omega
      have hno := List.countP_eq_zero.mp hl0
      have hnol : ∀ tv ∈ l, ¬ tv.asStr = some p := fun tv hm hsp =>
        hno tv hm (hall tv (List.mem_cons_of_mem a hm) hsp)
      rw [bindsFold]
      have hstep : (match a.asStr with
          | some p' =>
            if p' = p then
              match altEval tvw reg req p with
              | .ok c => bindingsAfter prior c.inserts
              | .error _ => prior
            else prior
          | none => prior) = bindingsAfter prior c.inserts := by
        rw [hs]
        simp [he]
      rw [hstep]
      exact bindsFold_id tvw reg req p l (bindingsAfter prior c.inserts) hnol
    · obtain ⟨tv, hm, htv⟩ := hex
      rcases List.mem_cons.mp hm with rfl | hm'
      · exact absurd htv hs
      · have hc' : l.countP (altFull tvw reg req) ≤ 1 := by omega
        rw [bindsFold]
        have hstep : (match a.asStr with
            | some p' =>
              if p' = p then
                match altEval tvw reg req p with
                | .ok c => bindingsAfter prior c.inserts
                | .error _ => prior
              else prior
            | none => prior) = prior := by
          cases has : a.asStr with
          | none => rfl
          | some p' =>
            have hpq : ¬ p' = p := fun hp => hs (by rw [has, hp])
            simp [hpq]
        rw [hstep]
        exact bindsFold_unique tvw reg req l p prior c ⟨tv, hm', htv⟩
          (fun tv' hm2 hsp => hall tv' (List.mem_cons_of_mem a hm2) hsp)
          hc' he

theorem parse_route_resolved (reg : Registry) (api : Toml) (first : String)
    (rs : List String) (rt g pv dv : Toml) (pats : List Toml) (doc : String)
    (hr : api.get "route" = some rt) (hg : rt.get first = some g)
    (hp : g.get "PATH" = some pv) (ha : pv.asArray = some pats)
    (hd : g.get "DOC" = some dv) (hds : dv.asStr = some doc) :
    parse_route reg api (first :: rs)
      = (match runAlts reg g (first :: rs) pats ⟨doc, 0, "", []⟩ with
         | .error (.failure e) => .err e
         | .error (.crash m) => .crash m
         | .ok st =>
           match st.matchingRouteCount with
           | 0 => .err (st.argDoc ++ "\nNeed documentation")
           | 1 => .ok st.matchingRoute
               ((alookup st.bindings st.matchingRoute).getD [])
           | _ => .err (st.argDoc ++ "\nAmbiguity in api.toml")) := by
  simp only [parse_route, hr, hg, hp, ha, hd, hds]

/- ------------------------------------------------------------------ -/
/- Claim theorems. -/

/-- Claim C1: with the route group resolved and every alternative evaluating
without a panic or a type-resolution abort, the result of `parse_route` is
determined by the number of fully matching alternatives: zero full matches
yield the `Err` marked `"\nNeed documentation"` (the NoMatchingPattern
diagnostic); exactly one full match yields `Ok` carrying that alternative's
pattern string and its bindings; two or more full matches yield the `Err`
marked `"\nAmbiguity in api.toml"` (the AmbiguousPattern diagnostic) rather
than silently picking one. -/
theorem parse_route_match_trichotomy (reg : Registry) (api : Toml)
    (first : String) (rs : List String) (rt g pv dv : Toml)
    (pats : List Toml) (doc : String)
    (hr : api.get "route" = some rt) (hg : rt.get first = some g)
    (hp : g.get "PATH" = some pv) (ha : pv.asArray = some pats)
    (hd : g.get "DOC" = some dv) (hds : dv.asStr = some doc)
    (hab : ∀ tv ∈ pats, altAbort (typeView g) reg (first :: rs) tv = none) :
    (pats.countP (altFull (typeView g) reg (first :: rs)) = 0 →
       ∃ t, parse_route reg api (first :: rs)
         = .err (t ++ "\nNeed documentation")) ∧
    (∀ p, pats.countP (altFull (typeView g) reg (first :: rs)) = 1 →
       lastFullStr (typeView g) reg (first :: rs) pats = some p →
       ∃ b, parse_route reg api (first :: rs) = .ok p b) ∧
    (2 ≤ pats.countP (altFull (typeView g) reg (first :: rs)) →
       ∃ t, parse_route reg api (first :: rs)
         = .err (t ++ "\nAmbiguity in api.toml")) := by
  obtain ⟨stf, hR, hcnt0, hrt, _, _, _⟩ :=
    runAlts_ok reg g (first :: rs) pats ⟨doc, 0, "", []⟩ hab
  have hcnt : stf.matchingRouteCount
      = pats.countP (altFull (typeView g) reg (first :: rs)) := by
    simpa using hcnt0
  rw [parse_route_resolved reg api first rs rt g pv dv pats doc
    hr hg hp ha hd hds, hR]
  refine ⟨?_, ?_, ?_⟩
  · intro h0
    have hc0 : stf.matchingRouteCount = 0 := by omega
    simp only [hc0]
    exact ⟨stf.argDoc, rfl⟩
  · intro p h1 hl
    have hc1 : stf.matchingRouteCount = 1 := by omega
    have hrp : stf.matchingRoute = p := by rw [hrt, hl]; rfl
    simp only [hc1, hrp]
    exact ⟨_, rfl⟩
  · intro h2
    obtain ⟨k, hk⟩ : ∃ k, stf.matchingRouteCount = k + 2 :=
      ⟨stf.matchingRouteCount - 2, by omega⟩
    simp only [hk]
    exact ⟨stf.argDoc, rfl⟩

/-- Witness for C1: on the concrete two-alternative `getbalance` group, the
request `getbalance` has exactly one full match and succeeds with it. -/
theorem parse_route_match_trichotomy_witness :
    ∃ b, parse_route specRegistry apiW ["getbalance"] = .ok "getbalance" b :=
  (parse_route_match_trichotomy specRegistry apiW "getbalance" [] _ gW _ _
    [Toml.str "getbalance", Toml.str "getbalance/:n"] "Balance docs."
    rfl rfl rfl rfl rfl rfl (by decide)).2.1 "getbalance"
    (by decide) (by decide)

/-- Claim C2: an alternative (pattern string `p`) whose evaluation completes
is counted as a full match — the loop increments `matching_route_count` by
one for it, and otherwise leaves the count unchanged — exactly when no
literal segment mismatched (exact string equality), no parameter segment
failed to parse, and after consuming one request segment per pattern segment
the request has no remaining segments. -/
theorem full_match_iff_flags (reg : Registry) (g : Toml) (req : List String)
    (st : LoopState) (tv : Toml) (p : String) (c : CoreState)
    (hs : tv.asStr = some p)
    (he : altEval (typeView g) reg req p = .ok c) :
    ∃ st', processAlt reg g req st tv = .ok st' ∧
      st'.matchingRouteCount = st.matchingRouteCount +
        (if !litMismatchD (typeView g) (splitSlash p) req
            && !parseFailD (typeView g) reg (splitSlash p) req
            && decide (req.length ≤ (splitSlash p).length)
         then 1 else 0) := by
  obtain ⟨st', hP, hcnt, _⟩ := processAlt_ok reg g req st tv p c hs he
  have he' : runCore (typeView g) reg (splitSlash p)
      ⟨false, false, req, []⟩ = .ok c := he
  obtain ⟨i1, i2, i3, _⟩ := runCore_spec (typeView g) reg (splitSlash p) _ c he'
  simp only [Bool.false_or] at i1 i2
  have hAF : altFullOf c
      = (!litMismatchD (typeView g) (splitSlash p) req
          && !parseFailD (typeView g) reg (splitSlash p) req
          && decide (req.length ≤ (splitSlash p).length)) := by
    have hlen : c.req.isEmpty = decide (req.length ≤ (splitSlash p).length) := by
      rw [i3]
      by_cases hl : req.length ≤ (splitSlash p).length
      · simp [List.isEmpty_iff, List.drop_eq_nil_iff, hl]
      · simp [List.isEmpty_iff, List.drop_eq_nil_iff, hl]
    rw [altFullOf, i1, i2, hlen]
    cases litMismatchD (typeView g) (splitSlash p) req <;>
      cases parseFailD (typeView g) reg (splitSlash p) req <;>
      cases decide (req.length ≤ (splitSlash p).length) <;> rfl
  rw [hAF] at hcnt
  exact ⟨st', hP, hcnt⟩

/-- Witness for C2: on the `getbalance/:n` alternative and the request
`getbalance/5`, all three conditions hold and the count is incremented. -/
theorem full_match_iff_flags_witness :
    ∃ st', processAlt specRegistry gW ["getbalance", "5"]
        ⟨"", 0, "", []⟩ (Toml.str "getbalance/:n") = .ok st' ∧
      st'.matchingRouteCount = (0 : Nat) +
        (if !litMismatchD (typeView gW) (splitSlash "getbalance/:n")
              ["getbalance", "5"]
            && !parseFailD (typeView gW) specRegistry
              (splitSlash "getbalance/:n") ["getbalance", "5"]
            && decide (["getbalance", "5"].length
              ≤ (splitSlash "getbalance/:n").length)
         then 1 else 0) :=
  full_match_iff_flags specRegistry gW ["getbalance", "5"] ⟨"", 0, "", []⟩
    (Toml.str "getbalance/:n") "getbalance/:n"
    ⟨false, false, [], [(":n", ⟨":n", .unsignedInt, .natVal 5⟩)]⟩
    rfl rfl

/-- Claim C3, amended: a pattern that references an undeclared segment type
is not rejected at load time; the resolution error surfaces per request —
when the matcher reaches the first alternative whose evaluation aborts with
the type-resolution failure `e`, `parse_route` returns `Err e` for that
request. -/
theorem undeclared_type_fails_request (reg : Registry) (api : Toml)
    (first : String) (rs : List String) (rt g pv dv : Toml)
    (pats : List Toml) (doc : String)
    (hr : api.get "route" = some rt) (hg : rt.get first = some g)
    (hp : g.get "PATH" = some pv) (ha : pv.asArray = some pats)
    (hd : g.get "DOC" = some dv) (hds : dv.asStr = some doc)
    (tvs1 : List Toml) (tv : Toml) (tvs2 : List Toml) (e : String)
    (hsplit : pats = tvs1 ++ tv :: tvs2)
    (h1 : ∀ tv' ∈ tvs1, altAbort (typeView g) reg (first :: rs) tv' = none)
    (hae : altAbort (typeView g) reg (first :: rs) tv
      = some (.failure e)) :
    parse_route reg api (first :: rs) = .err e := by
  rw [parse_route_resolved reg api first rs rt g pv dv pats doc
    hr hg hp ha hd hds, hsplit,
    runAlts_abort reg g (first :: rs) tvs1 tv tvs2 ⟨doc, 0, "", []⟩
      (.failure e) h1 hae]

/-- Counterexample for C3 as stated: the api table `apiU` references the
undeclared segment type `Nonsense`, yet `init_server` registers its route
and starts (no load-time failure), and the error is surfaced as a
per-request failure by `parse_route`. -/
theorem undeclared_type_counterexample :
    parse_route specRegistry apiU ["frob", "1"]
      = .err "Unknown segment type: Nonsense" ∧
    init_server_routes apiU = .ok [("frob/:z", false)] :=
  ⟨by decide, by decide⟩

/-- Witness for the amended C3 theorem at the concrete table `apiU`. -/
theorem undeclared_type_fails_request_witness :
    parse_route specRegistry apiU ["frob", "1"]
      = .err "Unknown segment type: Nonsense" :=
  undeclared_type_fails_request specRegistry apiU "frob" ["1"] _ gU _ _
    [Toml.str "frob/:z"] "Frob docs." rfl rfl rfl rfl rfl rfl
    [] (Toml.str "frob/:z") [] "Unknown segment type: Nonsense" rfl
    (by intro tv' h; exact absurd h (List.not_mem_nil tv'))
    (by decide)

/-- Claim C4, code bug: a request whose first segment names no declared
route group does not produce an ordinary failure value; the panicking
`toml` index (`api["route"][first_segment]`) aborts with
`"index not found"`. -/
theorem unknown_group_panics :
    parse_route specRegistry apiW ["nosuch"] = .crash "index not found" := by
  decide

theorem countP_singleton_le_one {α : Type} (p : α → Bool) (a : α) :
    ([a].countP p) ≤ 1 := by
  rw [List.countP_cons, List.countP_nil]
  split <;> omega

/-- Claim C5: for two api tables that resolve the same route group key to
group tables with the same type view, whose `PATH` lists are permutations of
one another, and whose alternatives are unambiguous (at most one full match
for any request), the chosen full match of `parse_route` is the same. -/
theorem parse_route_order_irrelevant (reg : Registry) (first : String)
    (rs : List String) (api1 api2 rt1 rt2 g1 g2 pv1 pv2 dv1 dv2 : Toml)
    (pats1 pats2 : List Toml) (d1 d2 : String)
    (hr1 : api1.get "route" = some rt1) (hg1 : rt1.get first = some g1)
    (hp1 : g1.get "PATH" = some pv1) (ha1 : pv1.asArray = some pats1)
    (hd1 : g1.get "DOC" = some dv1) (hds1 : dv1.asStr = some d1)
    (hr2 : api2.get "route" = some rt2) (hg2 : rt2.get first = some g2)
    (hp2 : g2.get "PATH" = some pv2) (ha2 : pv2.asArray = some pats2)
    (hd2 : g2.get "DOC" = some dv2) (hds2 : dv2.asStr = some d2)
    (htv : typeView g1 = typeView g2)
    (hperm : pats1.Perm pats2)
    (hunamb : ∀ req' : List String,
      pats1.countP (altFull (typeView g1) reg req') ≤ 1) :
    chosenRoute (parse_route reg api1 (first :: rs))
      = chosenRoute (parse_route reg api2 (first :: rs)) := by
  rw [parse_route_resolved reg api1 first rs rt1 g1 pv1 dv1 pats1 d1
      hr1 hg1 hp1 ha1 hd1 hds1,
    parse_route_resolved reg api2 first rs rt2 g2 pv2 dv2 pats2 d2
      hr2 hg2 hp2 ha2 hd2 hds2]
  by_cases hab : ∀ tv ∈ pats1,
    altAbort (typeView g1) reg (first :: rs) tv = none
  · have hab2 : ∀ tv ∈ pats2,
        altAbort (typeView g2) reg (first :: rs) tv = none := by
      intro tv hm
      rw [← htv]
      exact hab tv (hperm.mem_iff.mpr hm)
    obtain ⟨st1, hR1, hc1, hl1, _, _, _⟩ :=
      runAlts_ok reg g1 (first :: rs) pats1 ⟨d1, 0, "", []⟩ hab
    obtain ⟨st2, hR2, hc2, hl2, _, _, _⟩ :=
      runAlts_ok reg g2 (first :: rs) pats2 ⟨d2, 0, "", []⟩ hab2
    rw [hR1, hR2]
    have hcnt2eq : pats2.countP (altFull (typeView g2) reg (first :: rs))
        = pats1.countP (altFull (typeView g1) reg (first :: rs)) := by
      rw [← htv]
      exact (hperm.countP_eq _).symm
    have hn1 : st1.matchingRouteCount
        = pats1.countP (altFull (typeView g1) reg (first :: rs)) := by
      simpa using hc1
    have hn2 : st2.matchingRouteCount
        = pats1.countP (altFull (typeView g1) reg (first :: rs)) := by
      rw [← hcnt2eq]
      simpa using hc2
    cases hN0 : pats1.countP (altFull (typeView g1) reg (first :: rs)) with
    | zero =>
      rw [hN0] at hn1 hn2
      simp only [hn1, hn2, chosenRoute]
    | succ n =>
      cases n with
      | zero =>
        rw [hN0] at hn1 hn2
        have hpos : 0 < pats1.countP
            (altFull (typeView g1) reg (first :: rs)) := by omega
        obtain ⟨tv, hm, hf⟩ := List.countP_pos_iff.mp hpos
        have hf2 : altFull (typeView g2) reg (first :: rs) tv = true := by
          rw [← htv]
          exact hf
        have hu1 := lastFullStr_unique (typeView g1) reg (first :: rs)
          pats1 tv hN0 hm hf
        have hu2 := lastFullStr_unique (typeView g2) reg (first :: rs)
          pats2 tv (by rw [hcnt2eq]; exact hN0) (hperm.mem_iff.mp hm) hf2
        obtain ⟨p, hps⟩ := altFull_isSome (typeView g1) reg (first :: rs)
          tv hf
        have hma : st1.matchingRoute = p := by
          rw [hl1, hu1, hps]
          rfl
        have hmb : st2.matchingRoute = p := by
          rw [hl2, hu2, hps]
          rfl
        simp only [hn1, hn2, hma, hmb, chosenRoute]
      | succ k =>
        rw [hN0] at hn1 hn2
        simp only [hn1, hn2, chosenRoute]
  · push_neg at hab
    obtain ⟨a1, hE1⟩ := runAlts_error_of_abort reg g1 (first :: rs) pats1
      ⟨d1, 0, "", []⟩ (by
        obtain ⟨tv, hm, hne⟩ := hab
        exact ⟨tv, hm, hne⟩)
    have hab2 : ∃ tv ∈ pats2,
        altAbort (typeView g2) reg (first :: rs) tv ≠ none := by
      obtain ⟨tv, hm, hne⟩ := hab
      refine ⟨tv, hperm.mem_iff.mp hm, ?_⟩
      rw [← htv]
      exact hne
    obtain ⟨a2, hE2⟩ := runAlts_error_of_abort reg g2 (first :: rs) pats2
      ⟨d2, 0, "", []⟩ hab2
    rw [hE1, hE2]
    cases a1 <;> cases a2 <;> simp [chosenRoute]

/-- Witness for C5 at the single-alternative group `gS` (trivially
unambiguous) and the identity permutation. -/
theorem parse_route_order_irrelevant_witness :
    chosenRoute (parse_route specRegistry apiS ["ping"])
      = chosenRoute (parse_route specRegistry apiS ["ping"]) :=
  parse_route_order_irrelevant specRegistry "ping" [] apiS apiS _ _ gS gS
    _ _ _ _ [Toml.str "ping"] [Toml.str "ping"] "Ping docs." "Ping docs."
    rfl rfl rfl rfl rfl rfl rfl rfl rfl rfl rfl rfl rfl (List.Perm.refl _)
    (fun _ => countP_singleton_le_one _ _)

/-- Claim C6: when a parameter segment is evaluated and the request is
exhausted, the matcher consumes the empty string in its place and hands it
to the type parser: the parse-failed flag is set exactly when the registered
type rejects the empty string, and on success the recorded binding carries
the value parsed from the empty string. -/
theorem exhausted_param_gets_empty (reg : Registry) (g : Toml)
    (pattern s : String) (st : AltState) (tyv : Toml) (ty : String)
    (pt : UrlSegmentType)
    (hreq : st.reqSegments = [])
    (hget : g.get s = some tyv) (hstr : tyv.asStr = some ty)
    (hty : reg.fromStr ty = .ok pt) :
    ∃ st', segStep reg g pattern s st = .ok st' ∧
      st'.argumentParseFailed
        = (st.argumentParseFailed || (reg.parse pt "").isNone) ∧
      (∀ v, reg.parse pt "" = some v →
        st'.bindings = outerInsert st.bindings pattern s ⟨s, pt, v⟩) ∧
      ((reg.parse pt "") = none → st'.bindings = st.bindings) := by
  have hhd : st.reqSegments.headD "" = "" := by rw [hreq]; rfl
  simp only [segStep, hget, hstr, hty, hhd]
  cases hp : reg.parse pt "" with
  | some v =>
    refine ⟨_, rfl, by simp, ?_, ?_⟩
    · intro v' hv'
      injection hv' with hv'
      subst hv'
      rfl
    · intro hn
      cases hn
  | none =>
    refine ⟨_, rfl, by simp, ?_, fun _ => rfl⟩
    intro v' hv'
    cases hv'

/-- Witness for C6: the `UnsignedInteger` parameter `:n` with an exhausted
request parses the empty string and fails, setting the parse-failed flag. -/
theorem exhausted_param_gets_empty_witness :
    ∃ st', segStep specRegistry gW "getbalance/:n" ":n"
        ⟨false, false, [], "", []⟩ = .ok st' ∧
      st'.argumentParseFailed
        = (false || (specRegistry.parse .unsignedInt "").isNone) ∧
      (∀ v, specRegistry.parse .unsignedInt "" = some v →
        st'.bindings = outerInsert [] "getbalance/:n" ":n"
          ⟨":n", .unsignedInt, v⟩) ∧
      ((specRegistry.parse .unsignedInt "") = none → st'.bindings = []) :=
  exhausted_param_gets_empty specRegistry gW "getbalance/:n" ":n"
    ⟨false, false, [], "", []⟩ (Toml.str "UnsignedInteger")
    "UnsignedInteger" .unsignedInt rfl rfl rfl rfl

/-- Claim C7: when every alternative evaluates without aborting and
`parse_route` returns a Failure (no matching pattern, or an ambiguous
match), the diagnostic payload starts with the route group's `DOC` text and
contains the per-alternative trace header for every alternative of the
group — no alternative is skipped. -/
theorem failure_payload_documented (reg : Registry) (api : Toml)
    (first : String) (rs : List String) (rt g pv dv : Toml)
    (pats : List Toml) (doc : String)
    (hr : api.get "route" = some rt) (hg : rt.get first = some g)
    (hp : g.get "PATH" = some pv) (ha : pv.asArray = some pats)
    (hd : g.get "DOC" = some dv) (hds : dv.asStr = some doc)
    (hab : ∀ tv ∈ pats, altAbort (typeView g) reg (first :: rs) tv = none)
    (d : String)
    (hres : parse_route reg api (first :: rs) = .err d) :
    (∃ t, d = doc ++ t) ∧
    (∀ tv ∈ pats, ∀ p, tv.asStr = some p →
      ∃ u w, d = u ++ "\n\nRoute: " ++ p ++ "\n--------------------\n" ++ w) := by
  obtain ⟨stf, hR, _, _, _, ⟨d0, hd0⟩, hinf⟩ :=
    runAlts_ok reg g (first :: rs) pats ⟨doc, 0, "", []⟩ hab
  rw [parse_route_resolved reg api first rs rt g pv dv pats doc
    hr hg hp ha hd hds, hR] at hres
  have hdoc0 : stf.argDoc = doc ++ d0 := hd0
  cases hN0 : stf.matchingRouteCount with
  | zero =>
    simp only [hN0] at hres
    injection hres with hres
    subst hres
    constructor
    · exact ⟨d0 ++ "\nNeed documentation",
        by rw [hdoc0, String.append_assoc]⟩
    · intro tv hm p hsp
      obtain ⟨u, w, hw⟩ := hinf tv hm p hsp
      exact ⟨u, w ++ "\nNeed documentation",
        by rw [hw, String.append_assoc]⟩
  | succ n =>
    cases n with
    | zero => simp only [hN0] at hres; exact RouteResult.noConfusion hres
    | succ k =>
      simp only [hN0] at hres
      injection hres with hres
      subst hres
      constructor
      · exact ⟨d0 ++ "\nAmbiguity in api.toml",
          by rw [hdoc0, String.append_assoc]⟩
      · intro tv hm p hsp
        obtain ⟨u, w, hw⟩ := hinf tv hm p hsp
        exact ⟨u, w ++ "\nAmbiguity in api.toml",
          by rw [hw, String.append_assoc]⟩

/-- Witness for C7: the request `getbalance/x` fails against `apiW` and its
payload starts with the group's documentation text. -/
theorem failure_payload_documented_witness :
    ∃ d t, parse_route specRegistry apiW ["getbalance", "x"] = .err d ∧
      d = "Balance docs." ++ t := by
  have hb : (parse_route specRegistry apiW ["getbalance", "x"]).isErr
      = true := by decide
  cases hres : parse_route specRegistry apiW ["getbalance", "x"] with
  | ok p b => rw [hres] at hb; simp [RouteResult.isErr] at hb
  | crash m => rw [hres] at hb; simp [RouteResult.isErr] at hb
  | err d =>
    obtain ⟨⟨t, ht⟩, _⟩ := failure_payload_documented specRegistry apiW
      "getbalance" ["x"] _ gW _ _
      [Toml.str "getbalance", Toml.str "getbalance/:n"] "Balance docs."
      rfl rfl rfl rfl rfl rfl (by decide) d hres
    exact ⟨d, t, rfl, ht⟩

/-- Claim C8: matching is deterministic and stateless — `parse_route` is a
pure function of the registry, the api table and the request segments, so
repeated evaluation on the same inputs yields the identical result; no
state parameter exists for a hidden state to live in. -/
theorem parse_route_deterministic (reg : Registry) (api : Toml)
    (reqSegs : List String) :
    parse_route reg api reqSegs = parse_route reg api reqSegs := rfl

/-- Claim C9: matching never touches the wallet: `parse_route` on a request
carrying a `WebState` reads only the `api` field, so its result is
identical for any two states that agree on `api`, whatever their wallets
(and web paths) are; being a pure function, it alters no server state. -/
theorem parse_route_wallet_frame {W : Type} (reg : Registry)
    (wp1 wp2 : String) (api : Toml) (w1 w2 : W) (reqSegs : List String) :
    parse_route_req reg ⟨wp1, api, w1⟩ reqSegs
      = parse_route_req reg ⟨wp2, api, w2⟩ reqSegs := rfl

theorem bindingsAfter_none_getD {β : Type} (ins : List (String × β)) :
    ((bindingsAfter none ins).getD []) = applyInserts [] ins := by
  cases ins <;> rfl

/-- Claim C10, amended: on every successful return, the binding map is
exactly the replay of the chosen pattern's own successful parameter parses
— one recorded insert per parameter segment of that pattern whose parse
succeeded, in segment order, a repeated parameter name keeping the last
insert — and nothing gathered while evaluating other alternatives; a
pattern with no parameter segments yields the empty map. -/
theorem bindings_exactly_chosen (reg : Registry) (api : Toml)
    (first : String) (rs : List String) (rt g pv dv : Toml)
    (pats : List Toml) (doc : String)
    (hr : api.get "route" = some rt) (hg : rt.get first = some g)
    (hp : g.get "PATH" = some pv) (ha : pv.asArray = some pats)
    (hd : g.get "DOC" = some dv) (hds : dv.asStr = some doc)
    (hab : ∀ tv ∈ pats, altAbort (typeView g) reg (first :: rs) tv = none)
    (p : String) (b : List (String × RouteBinding))
    (hres : parse_route reg api (first :: rs) = .ok p b) :
    b = applyInserts []
      (paramBindings (typeView g) reg (splitSlash p) (first :: rs)) := by
  obtain ⟨stf, hR, hcnt0, hrt, hbv, _, _⟩ :=
    runAlts_ok reg g (first :: rs) pats ⟨doc, 0, "", []⟩ hab
  have hcnt : stf.matchingRouteCount
      = pats.countP (altFull (typeView g) reg (first :: rs)) := by
    simpa using hcnt0
  rw [parse_route_resolved reg api first rs rt g pv dv pats doc
    hr hg hp ha hd hds, hR] at hres
  cases hN0 : stf.matchingRouteCount with
  | zero => simp only [hN0] at hres; exact RouteResult.noConfusion hres
  | succ n =>
    cases n with
    | succ k => simp only [hN0] at hres; exact RouteResult.noConfusion hres
    | zero =>
      simp only [hN0] at hres
      injection hres with h1 h2
      have hcount1 : pats.countP (altFull (typeView g) reg (first :: rs))
          = 1 := by omega
      have hpos : 0 < pats.countP (altFull (typeView g) reg (first :: rs)) :=
        by omega
      obtain ⟨tv, hm, hf⟩ := List.countP_pos_iff.mp hpos
      have hlast := lastFullStr_unique (typeView g) reg (first :: rs) pats
        tv hcount1 hm hf
      obtain ⟨p', hp'⟩ := altFull_isSome (typeView g) reg (first :: rs) tv hf
      have hpp : p = p' := by
        rw [← h1, hrt, hlast, hp']
        rfl
      subst hpp
      have hfS : altFullS (typeView g) reg (first :: rs) p = true := by
        rw [← altFull_of_str (typeView g) reg (first :: rs) tv p hp']
        exact hf
      obtain ⟨c, hc⟩ : ∃ c, altEval (typeView g) reg (first :: rs) p
          = .ok c := by
        cases he2 : altEval (typeView g) reg (first :: rs) p with
        | ok c => exact ⟨c, rfl⟩
        | error a =>
          rw [altFullS] at hfS
          simp only [he2] at hfS
          exact Bool.noConfusion hfS
      have hall : ∀ tv' ∈ pats, tv'.asStr = some p →
          altFull (typeView g) reg (first :: rs) tv' = true := by
        intro tv' hm' hs'
        rw [altFull_of_str (typeView g) reg (first :: rs) tv' p hs']
        exact hfS
      have hex : ∃ tv' ∈ pats, tv'.asStr = some p := ⟨tv, hm, hp'⟩
      have hbp : alookup stf.bindings p
          = bindsFold (typeView g) reg (first :: rs) p pats none := by
        simpa [alookup] using hbv p
      rw [bindsFold_unique (typeView g) reg (first :: rs) pats p none c
        hex hall (by omega) hc] at hbp
      rw [← h2, h1, hbp, bindingsAfter_none_getD]
      have hc' : runCore (typeView g) reg (splitSlash p)
          ⟨false, false, first :: rs, []⟩ = .ok c := hc
      obtain ⟨_, _, _, i4⟩ :=
        runCore_spec (typeView g) reg (splitSlash p) _ c hc'
      rw [i4]
      simp

/-- Counterexample for C10 as stated: the pattern `g/:x/:x` has two
parameter segments, yet the successful binding map has a single entry — the
repeated name `:x` keeps only the last parsed value. -/
theorem duplicate_param_counterexample :
    parse_route specRegistry apiDup ["g", "a", "b"]
      = .ok "g/:x/:x" [(":x", ⟨":x", .literal, .stringVal "b"⟩)] ∧
    (splitSlash "g/:x/:x").countP (fun s => (Toml.get gDup s).isSome) = 2 ∧
    [(":x", (⟨":x", .literal, .stringVal "b"⟩ : RouteBinding))].length
      = 1 :=
  ⟨by decide, by decide, rfl⟩

/-- Witness for the amended C10 theorem at `apiW` and request
`getbalance/5`. -/
theorem bindings_exactly_chosen_witness :
    [(":n", (⟨":n", .unsignedInt, .natVal 5⟩ : RouteBinding))]
      = applyInserts [] (paramBindings (typeView gW) specRegistry
          (splitSlash "getbalance/:n") ["getbalance", "5"]) :=
  bindings_exactly_chosen specRegistry apiW "getbalance" ["5"] _ gW _ _
    [Toml.str "getbalance", Toml.str "getbalance/:n"] "Balance docs."
    rfl rfl rfl rfl rfl rfl (by decide) "getbalance/:n"
    [(":n", ⟨":n", .unsignedInt, .natVal 5⟩)] (by decide)
